import Mathlib

/-!
Verification of the MS-NRBF target-field extractor (src/extract_xml.py).

The decoder is embedded shallowly: the byte stream is a `List Nat` (each entry a
byte value), the reader's mutable state (`io.BytesIO` cursor, `classes`,
`objects`, `libraries`, `found_xml`) is an explicit `St` record threaded through
every operation, and Python exceptions become an explicit `Except Err` result
that still carries the state at the moment of the raise (Python exceptions do
not roll back mutations, and the salvage pass inspects the partial tables).

Modelling notes, applied uniformly:
- Python's `str` values produced by `.decode('utf-8', errors='replace')` never
  fail to decode; a decoded string is modelled by its raw byte run and its
  length by the byte count (the two coincide for the ASCII payloads and field
  names this tool compares and measures).
- IEEE floats from `struct.unpack` are kept as their raw little-endian byte
  runs (`DV.float`); no claim inspects a floating-point value.
- `gzip.decompress` and `zlib.decompress` are library calls outside this
  repository; they are passed in as oracle parameters
  `List Nat → Option (List Nat)` (`none` models a raised exception).
-/

namespace NRBF

/-- Errors: `eof` models `EOFError` from `byte()` on an exhausted stream;
`short` models `struct.error`/`IndexError` from interpreting a short fixed-width
read; `unknownMeta`/`unknownRecord` model the two `ValueError` raises; `fuel`
is the embedding's recursion bound (never reached on runs the theorems touch,
and handled by `run` exactly like any non-EOF exception). -/
inductive Err where
  | eof
  | short
  | unknownMeta (mid : Int)
  | unknownRecord (rt : Nat)
  | fuel
deriving DecidableEq, Repr

/-- Decoded values, mirroring the Python value universe returned by
`NrbfReader.record`: `None`, `bool`, `int`, `float` (kept as raw bytes), `str`
(kept as raw bytes), `bytes` (opaque primitive-array runs), the `('Header', root)`
and `('END',)` and `('Ref', id)` tuples, class-record dicts (`obj`; the
`'__class__'` entry of the Python dict is carried as the separate `cname`
argument), and Python lists (`arr` — both real element arrays and the
`[None] * n` null-run placeholders, which in Python are the same list type). -/
inductive DV where
  | null
  | bool (b : Bool)
  | int (z : Int)
  | float (raw : List Nat)
  | str (s : List Nat)
  | bytes (raw : List Nat)
  | header (root : Int)
  | endRec
  | ref (rid : Int)
  | obj (cname : List Nat) (fields : List (List Nat × DV))
  | arr (elems : List DV)

/-- Field-type descriptor produced by `NrbfReader.read_extra`: the tuples
`('Prim', tc)`, `('String', None)`, `('Object', None)`, `('SysClass', name)`,
`('Class', name, lib_id)`, `('ObjArr', None)`, `('StrArr', None)`,
`('PrimArr', tc)`, `('Unk', bt)`. -/
inductive Extra where
  | prim (tc : Nat)
  | str
  | obj
  | sysClass (n : List Nat)
  | cls (n : List Nat) (libId : Int)
  | objArr
  | strArr
  | primArr (tc : Nat)
  | unk (bt : Nat)
deriving DecidableEq, Repr

/-- One registered class definition: the tuple
`(class_name, [field_names], [bin_types], [extras])` stored in `self.classes`. -/
structure ClassDef where
  cname : List Nat
  fnames : List (List Nat)
  btypes : List Nat
  extras : List Extra

/-- Reader state: the remaining byte stream (the `io.BytesIO` cursor) and the
four mutable session members of `NrbfReader`. The Python dicts are modelled as
insertion-ordered association lists with dict-update semantics (`dinsert`). -/
structure St where
  stream : List Nat
  classes : List (Int × ClassDef)
  objects : List (Int × DV)
  libraries : List (Int × List Nat)
  found_xml : Option (List Nat)

/-- Python-dict assignment `d[k] = v`: replace in place if the key exists
(keeping its position, as Python dicts do), else append. -/
def dinsert {κ α : Type} [DecidableEq κ] (k : κ) (v : α) : List (κ × α) → List (κ × α)
  | [] => [(k, v)]
  | (k', v') :: rest => if k' = k then (k, v) :: rest else (k', v') :: dinsert k v rest

/-- Python-dict lookup `d.get(k)` / `d[k]` as an `Option`. -/
def dlookup {κ α : Type} [DecidableEq κ] (k : κ) : List (κ × α) → Option α
  | [] => none
  | (k', v') :: rest => if k' = k then some v' else dlookup k rest

/-- The state-and-exception monad shape used by every reader operation:
Python mutates `self` and may raise, so a step yields both an `Except` result
and the state as mutated up to the point of return or raise. -/
def M (α : Type) : Type := St → Except Err α × St

def mOk {α : Type} (a : α) : M α := fun st => (.ok a, st)

def mErr {α : Type} (e : Err) : M α := fun st => (.error e, st)

def mBind {α β : Type} (x : M α) (f : α → M β) : M β := fun st =>
  match x st with
  | (.ok a, st') => f a st'
  | (.error e, st') => (.error e, st')

/-- `NrbfReader.byte`: read one byte, raising `EOFError` on an empty stream. -/
def byte : M Nat := fun st =>
  match st.stream with
  | [] => (.error .eof, st)
  | b :: rest => (.ok b, { st with stream := rest })

/-- `self.s.read(n)` for a non-negative count: returns up to `n` bytes,
silently fewer when the stream is short (BytesIO semantics — no error). -/
def readN (n : Nat) : M (List Nat) := fun st =>
  (.ok (st.stream.take n), { st with stream := st.stream.drop n })

/-- `self.s.read(n)` where `n` came from signed arithmetic: a negative count
makes BytesIO read the whole remaining stream. -/
def readPy (n : Int) : M (List Nat) := fun st =>
  if n < 0 then (.ok st.stream, { st with stream := [] })
  else readN n.toNat st

/-- Little-endian unsigned value of a byte run. -/
def leU : List Nat → Nat
  | [] => 0
  | b :: rest => b + 256 * leU rest

/-- Two's-complement reinterpretation of a `w`-byte unsigned value, as
`struct.unpack` does for the signed formats. -/
def toSigned (v : Nat) (w : Nat) : Int :=
  if v < 2 ^ (8 * w - 1) then (v : Int) else (v : Int) - 2 ^ (8 * w)

/-- `NrbfReader.int32`: `struct.unpack('<i', self.s.read(4))` — `struct.error`
(modelled `Err.short`) when fewer than 4 bytes remain. -/
def int32 : M Int :=
  mBind (readN 4) fun raw => fun st =>
    if raw.length < 4 then (.error .short, st)
    else (.ok (toSigned (leU raw) 4), st)

/-- The loop body of `NrbfReader.varint`: up to `k` more iterations, current
accumulator `r` and shift; after the fifth iteration Python falls out of the
loop and returns the accumulator as-is. -/
def varintAux : Nat → Nat → Nat → M Nat
  | 0, r, _ => mOk r
  | k + 1, r, shift =>
    mBind byte fun b =>
      let r' := r ||| ((b &&& 0x7F) <<< shift)
      if b &&& 0x80 == 0 then mOk r' else varintAux k r' (shift + 7)

/-- `NrbfReader.varint`: 7-bits-per-byte variable-length integer, at most 5
encoding bytes. -/
def varint : M Nat := varintAux 5 0 0

/-- `NrbfReader.lps`: length-prefixed string. `self.s.read(n)` silently returns
fewer bytes when the stream is short, and `.decode(errors='replace')` never
fails, so a short stream yields a silently shortened string — no error. -/
def lps : M (List Nat) := mBind varint fun n => readN n

/-- The `sizes` table of `NrbfReader.primitive` (and of the two array readers):
byte width per recognized fixed-width primitive type code. -/
def primSize (tc : Nat) : Option Nat :=
  match tc with
  | 1 => some 1
  | 2 => some 1
  | 3 => some 2
  | 6 => some 8
  | 7 => some 2
  | 8 => some 4
  | 9 => some 8
  | 10 => some 1
  | 11 => some 4
  | 12 => some 8
  | 13 => some 8
  | 14 => some 2
  | 15 => some 4
  | 16 => some 8
  | _ => none

/-- Interpretation of a full-width raw run per type code, mirroring the
per-`tc` branches of `NrbfReader.primitive` (floats kept opaque). -/
def interpPrim (tc : Nat) (raw : List Nat) : DV :=
  match tc with
  | 1 => .bool (raw.headD 0 != 0)
  | 2 => .int (raw.headD 0)
  | 3 => .int (leU raw)
  | 6 => .float raw
  | 7 => .int (toSigned (leU raw) 2)
  | 8 => .int (toSigned (leU raw) 4)
  | 9 => .int (toSigned (leU raw) 8)
  | 10 => .int (toSigned (leU raw) 1)
  | 11 => .float raw
  | 12 => .int (toSigned (leU raw) 8)
  | 13 => .int (toSigned (leU raw) 8)
  | 14 => .int (leU raw)
  | 15 => .int (leU raw)
  | 16 => .int (leU raw)
  | _ => .null

/-- `NrbfReader.primitive`: type codes 5 and 18 read a length-prefixed string;
a code in the `sizes` table reads that many bytes and fails (IndexError or
`struct.error`, both modelled `Err.short`) when the stream held fewer; any
other code falls through to `return None` without consuming anything. -/
def primitive (tc : Nat) : M DV :=
  if tc == 5 then mBind lps fun s => mOk (.str s)
  else if tc == 18 then mBind lps fun s => mOk (.str s)
  else
    match primSize tc with
    | some sz =>
      mBind (readN sz) fun raw => fun st =>
        if raw.length < sz then (.error .short, st) else (.ok (interpPrim tc raw), st)
    | none => mOk .null

/-- `NrbfReader.read_extra`. -/
def read_extra (bt : Nat) : M Extra :=
  if bt == 0 then mBind byte fun tc => mOk (.prim tc)
  else if bt == 1 then mOk .str
  else if bt == 2 then mOk .obj
  else if bt == 3 then mBind lps fun n => mOk (.sysClass n)
  else if bt == 4 then mBind lps fun n => mBind int32 fun lid => mOk (.cls n lid)
  else if bt == 5 then mOk .objArr
  else if bt == 6 then mOk .strArr
  else if bt == 7 then mBind byte fun tc => mOk (.primArr tc)
  else mOk (.unk bt)

/-- The Python expression `ex[1]` as used when `bt == 0`: the payload slot of
the descriptor tuple, handed to `primitive`. Only the `prim` case is reachable
there (`bt == 0` forces `read_extra` to build `('Prim', tc)`); non-integer
payloads can never equal a primitive type code, so they map to a code outside
every recognized set. -/
def exTc : Extra → Nat
  | .prim tc => tc
  | .primArr tc => tc
  | .unk bt => bt
  | _ => 999

/-- The distinguished target field name `TARGET_FIELD`. -/
def TARGET_FIELD : List Nat := "<ComplianceXML>k__BackingField".data.map Char.toNat

/-- Line 218 of the source: after assigning `vals[fname]`, capture the value as
`self.found_xml` when the name matches the target and the value is a string
longer than 100 — note the assignment is unconditional, overwriting any earlier
capture. -/
def capture (fname : List Nat) (v : DV) : M Unit := fun st =>
  (.ok (),
    if fname = TARGET_FIELD then
      match v with
      | .str s => if s.length > 100 then { st with found_xml := some s } else st
      | _ => st
    else st)

def setObj (oid : Int) (v : DV) : M Unit := fun st =>
  (.ok (), { st with objects := dinsert oid v st.objects })

def setClass (oid : Int) (cd : ClassDef) : M Unit := fun st =>
  (.ok (), { st with classes := dinsert oid cd st.classes })

def setLib (lid : Int) (name : List Nat) : M Unit := fun st =>
  (.ok (), { st with libraries := dinsert lid name st.libraries })

/-- Sequentially read `n` items with the same reader (the list comprehensions
over `range(n)` in `class_record`). -/
def mList {α : Type} (x : M α) : Nat → M (List α)
  | 0 => mOk []
  | k + 1 => mBind x fun a => mBind (mList x k) fun xs => mOk (a :: xs)

/-- Sequentially run `read_extra` over the decoded bin-type bytes (the second
comprehension of `class_record`). -/
def mExtras : List Nat → M (List Extra)
  | [] => mOk []
  | bt :: rest => mBind (read_extra bt) fun e => mBind (mExtras rest) fun es => mOk (e :: es)

/-- Python's `zip(fnames, btypes, extras)`, truncating to the shortest. -/
def zip3 : List (List Nat) → List Nat → List Extra → List (List Nat × Nat × Extra)
  | f :: fs, b :: bs, e :: es => (f, b, e) :: zip3 fs bs es
  | _, _, _ => []

mutual

/-- `NrbfReader.record`: read the tag byte and dispatch. The `fuel` argument is
the embedding's recursion bound, decremented once per `record` entry; every
nested `record` call in the source consumes at least one stream byte first, so
a bound of (remaining bytes + 1) can never be hit. -/
def record : Nat → M DV
  | 0 => mErr .fuel
  | f + 1 => mBind byte fun rt => record_of_type f rt
termination_by f => (f, 0, 0)

/-- `NrbfReader.record_of_type`: one branch per record tag, in source order. -/
def record_of_type (f : Nat) (rt : Nat) : M DV :=
  if rt == 0 then
    mBind int32 fun root => mBind (readN 12) fun _ => mOk (.header root)
  else if rt == 12 then
    mBind int32 fun lid => mBind lps fun name =>
      mBind (setLib lid name) fun _ => record f
  else if rt == 11 then mOk .endRec
  else if rt == 10 then mOk .null
  else if rt == 13 then
    mBind byte fun n => mOk (.arr (List.replicate n .null))
  else if rt == 14 then
    mBind int32 fun n => mOk (.arr (List.replicate n.toNat .null))
  else if rt == 6 then
    mBind int32 fun oid => mBind lps fun v =>
      mBind (setObj oid (.str v)) fun _ => mOk (.str v)
  else if rt == 8 then
    mBind byte fun tc => primitive tc
  else if rt == 9 then
    mBind int32 fun rid => mOk (.ref rid)
  else if rt == 5 then class_record f true false
  else if rt == 4 then class_record f true true
  else if rt == 3 then class_record f false false
  else if rt == 2 then class_record f false true
  else if rt == 1 then
    mBind int32 fun oid => mBind int32 fun mid => fun st =>
      match dlookup mid st.classes with
      | none => (.error (.unknownMeta mid), st)
      | some cd => read_class_values f oid cd.cname cd.fnames cd.btypes cd.extras st
  else if rt == 7 then binary_array f
  else if rt == 15 || rt == 16 || rt == 17 then single_array f rt
  else mErr (.unknownRecord rt)
termination_by (f, 5, 0)

/-- `NrbfReader.class_record`: class name, field names, optional inline type
info (without it, every field is typed Object), optional library id, schema
registration, then the member values. -/
def class_record (f : Nat) (withTypes : Bool) (sys : Bool) : M DV :=
  mBind int32 fun oid =>
  mBind lps fun cname =>
  mBind int32 fun n =>
  mBind (mList lps n.toNat) fun fnames =>
  mBind
    (if withTypes then
      mBind (mList byte n.toNat) fun bts =>
      mBind (mExtras bts) fun exs => mOk (bts, exs)
    else mOk (List.replicate n.toNat 2, List.replicate n.toNat Extra.obj)) fun p =>
  mBind (if sys then mOk () else mBind int32 fun _ => mOk ()) fun _ =>
  mBind (setClass oid ⟨cname, fnames, p.1, p.2⟩) fun _ =>
  read_class_values f oid cname fnames p.1 p.2
termination_by (f, 4, 0)

/-- `NrbfReader.read_class_values`: decode the member values, build the object
dict, register it under `oid`, and return it. -/
def read_class_values (f : Nat) (oid : Int) (cname : List Nat)
    (fnames : List (List Nat)) (btypes : List Nat) (extras : List Extra) : M DV :=
  mBind (readFields f (zip3 fnames btypes extras) [] 0) fun vals =>
  mBind (setObj oid (.obj cname vals)) fun _ => mOk (.obj cname vals)
termination_by (f, 3, 0)

/-- The member loop of `read_class_values`: `vals` accumulates the dict, `skip`
is the pending null-run count (Python lets it reach -1; only `skip > 0`
matters, so `Nat` subtraction is equivalent). A decoded Python list — a
null-run placeholder or a real array — fills the current slot with `None` and
sets `skip` to its length minus one; the skip branch performs no capture check
(the `continue` precedes it). -/
def readFields (f : Nat) : List (List Nat × Nat × Extra) → List (List Nat × DV) → Nat →
    M (List (List Nat × DV))
  | [], vals, _ => mOk vals
  | (fname, bt, ex) :: rest, vals, skip =>
    if skip > 0 then
      readFields f rest (dinsert fname .null vals) (skip - 1)
    else if bt == 0 then
      mBind (primitive (exTc ex)) fun v =>
      mBind (capture fname v) fun _ =>
      readFields f rest (dinsert fname v vals) 0
    else
      mBind (record f) fun v =>
      match v with
      | .arr es =>
        mBind (capture fname .null) fun _ =>
        readFields f rest (dinsert fname .null vals) (es.length - 1)
      | _ =>
        mBind (capture fname v) fun _ =>
        readFields f rest (dinsert fname v vals) 0
termination_by fields _ _ => (f, 2, fields.length)

/-- `NrbfReader.binary_array`: header fields, then either one opaque byte run
(inline-primitive element type, width from the `sizes` table with default 4)
or `total` nested element records with null-run compaction. -/
def binary_array (f : Nat) : M DV :=
  mBind int32 fun oid =>
  mBind byte fun atype =>
  mBind int32 fun rank =>
  mBind (mList int32 rank.toNat) fun lengths =>
  mBind
    (if atype == 3 || atype == 4 || atype == 5 then
      mBind (mList int32 rank.toNat) fun _ => mOk ()
    else mOk ()) fun _ =>
  mBind byte fun bt =>
  mBind (read_extra bt) fun ex =>
  let total : Int := lengths.foldl (· * ·) 1
  if bt == 0 then
    let sz : Nat := (primSize (exTc ex)).getD 4
    mBind (readPy (total * sz)) fun data =>
    mBind (setObj oid (.bytes data)) fun _ => mOk (.bytes data)
  else
    mBind (arrElems f total.toNat [] 0) fun elems =>
    mBind (setObj oid (.arr elems)) fun _ => mOk (.arr elems)
termination_by (f, 2, 0)

/-- `NrbfReader.single_array`: tag 15 reads an opaque primitive run, tags 16
and 17 decode `length` nested records with null-run compaction. -/
def single_array (f : Nat) (rt : Nat) : M DV :=
  mBind int32 fun oid =>
  mBind int32 fun length =>
  if rt == 15 then
    mBind byte fun tc =>
    let sz : Nat := (primSize tc).getD 4
    mBind (readPy (length * sz)) fun data =>
    mBind (setObj oid (.bytes data)) fun _ => mOk (.bytes data)
  else
    mBind (arrElems f length.toNat [] 0) fun elems =>
    mBind (setObj oid (.arr elems)) fun _ => mOk (.arr elems)
termination_by (f, 2, 0)

/-- The element loop shared by `binary_array` and `single_array` (non-primitive
element types): `k` slots remain, `acc` holds decoded elements in reverse,
`skip` as in `readFields`. -/
def arrElems (f : Nat) : Nat → List DV → Nat → M (List DV)
  | 0, acc, _ => mOk acc.reverse
  | k + 1, acc, skip =>
    if skip > 0 then arrElems f k (.null :: acc) (skip - 1)
    else
      mBind (record f) fun v =>
      match v with
      | .arr es => arrElems f k (.null :: acc) (es.length - 1)
      | _ => arrElems f k (v :: acc) 0
termination_by k _ _ => (f, 1, k)

end

/-- The loop body of `NrbfReader.resolve`: while the value is a `('Ref', id)`
tuple, stop if the id was already visited (returning the value in hand), else
record it and replace the value by `self.objects.get(ref_id)` — Python's `get`
yields `None` for a missing id, which is the very value `DV.null` models. The
fuel is the embedding's loop bound; `resolve` passes one that is proved to be
never reached (`resolveAux_fuel_stable`). -/
def resolveAux (objects : List (Int × DV)) : Nat → List Int → DV → DV
  | 0, _, v => v
  | f + 1, seen, v =>
    match v with
    | .ref rid =>
      if rid ∈ seen then v
      else resolveAux objects f (rid :: seen) ((dlookup rid objects).getD .null)
    | _ => v

/-- `NrbfReader.resolve`. -/
def resolve (objects : List (Int × DV)) (v : DV) : DV :=
  resolveAux objects (objects.length + 2) [] v

/-- The acceptance test applied to a resolved salvage candidate:
`isinstance(v, str) and len(v) > 100`. -/
def textOver100 (v : DV) : Option (List Nat) :=
  match v with
  | .str s => if s.length > 100 then some s else none
  | _ => none

/-- The object-table scan shared verbatim by `NrbfReader.run`'s salvage branch
(lines 304-309) and by `process`'s post-run check (lines 364-369): walk the
object table in insertion order, and for each dict value containing the target
field name, resolve that field's value and accept the first string longer
than 100. -/
def objScan (objects : List (Int × DV)) : List (Int × DV) → Option (List Nat)
  | [] => none
  | (_, v) :: rest =>
    match v with
    | .obj _ fields =>
      match dlookup TARGET_FIELD fields with
      | some fv =>
        match textOver100 (resolve objects fv) with
        | some s => some s
        | none => objScan objects rest
      | none => objScan objects rest
    | _ => objScan objects rest

/-- Python truthiness of `self.found_xml` (`None` and the empty string are
falsy), as tested by the two `if self.found_xml:` lines. -/
def foundTruthy (st : St) : Bool :=
  match st.found_xml with
  | some s => !s.isEmpty
  | none => false

/-- The comparison `r == ('END',)` of the decode loop (no other decoded value
compares equal to that tuple). -/
def isEnd : DV → Bool
  | .endRec => true
  | _ => false

/-- The `while True` loop of `NrbfReader.run`: read one record, stop on the End
marker or once `found_xml` is truthy. Each top-level record read is given the
always-sufficient recursion bound (remaining bytes + 1); the loop's own fuel is
likewise never reached, since every record consumes at least one byte. -/
def runLoop : Nat → M Unit
  | 0 => mErr .fuel
  | f + 1 => fun st =>
    match record (st.stream.length + 1) st with
    | (.error e, st') => (.error e, st')
    | (.ok r, st') =>
      if isEnd r then (.ok (), st')
      else if foundTruthy st' then (.ok (), st')
      else runLoop f st'

/-- `NrbfReader.__init__`. -/
def initSt (data : List Nat) : St := ⟨data, [], [], [], none⟩

/-- `NrbfReader.run` of a fresh reader over `data`: run the decode loop;
`except EOFError: pass` makes stream exhaustion at a byte read benign
unconditionally; any other exception is suppressed if a target value is already
in hand, else the salvage scan over the object table runs, and only if it too
finds nothing is the original error re-raised. -/
def run (data : List Nat) : Except Err Unit × St :=
  match runLoop (data.length + 1) (initSt data) with
  | (.ok _, st') => (.ok (), st')
  | (.error .eof, st') => (.ok (), st')
  | (.error e, st') =>
    if foundTruthy st' then (.ok (), st')
    else
      match objScan st'.objects st'.objects with
      | some s => (.ok (), { st' with found_xml := some s })
      | none => (.error e, st')

/-- Contiguous-subsequence containment `pat in xs` over byte runs
(Python's `in` on `bytes`). -/
def startsList : List Nat → List Nat → Bool
  | [], _ => true
  | _ :: _, [] => false
  | p :: ps, x :: xs => p == x && startsList ps xs

def containsSub (pat : List Nat) (xs : List Nat) : Bool :=
  match xs with
  | [] => pat.isEmpty
  | _ :: rest => startsList pat xs || containsSub pat rest

/-- The two textual anchors accepted by `scan_compressed`:
`b"<?xml" in dec or b"<Title24" in dec`. -/
def xmlAnchor : List Nat := "<?xml".data.map Char.toNat

def title24Anchor : List Nat := "<Title24".data.map Char.toNat

def anchorOk (dec : List Nat) : Bool :=
  containsSub xmlAnchor dec || containsSub title24Anchor dec

/-- The gzip pass of `scan_compressed`, iterating the given offsets in order:
at an offset whose two bytes equal the gzip magic, attempt the oracle on the
suffix; a raised decompression error (`none`) or a missing anchor just moves on
to the next offset. -/
def gzipScanList (gz : List Nat → Option (List Nat)) (data : List Nat) :
    List Nat → Option (List Nat)
  | [] => none
  | i :: rest =>
    if data.getD i 0 == 0x1f && data.getD (i + 1) 0 == 0x8b then
      match gz (data.drop i) with
      | some dec => if anchorOk dec then some dec else gzipScanList gz data rest
      | none => gzipScanList gz data rest
    else gzipScanList gz data rest

/-- The gzip pass entry: `for i in range(len(data) - 2)`. -/
def gzipScan (gz : List Nat → Option (List Nat)) (data : List Nat) : Option (List Nat) :=
  gzipScanList gz data (List.range (data.length - 2))

/-- `data.find(pat, start)`: lowest offset `≥ start` at which `pat` occurs in
full, if any. -/
def findSub (data pat : List Nat) (start : Nat) : Option Nat :=
  (List.range data.length).find? fun i => start ≤ i && startsList pat (data.drop i)

/-- The inner `while True` of the zlib pass for one magic prefix: find the next
occurrence at or after `idx`, attempt the oracle there, accept on anchor, and
otherwise retry from the following byte. The fuel is the embedding's loop
bound; the source loop terminates because `idx` strictly increases and is
bounded by the buffer length, so `scanZlib`'s bound of (length + 1) is never
reached. -/
def zlibLoop (zl : List Nat → Option (List Nat)) (data : List Nat) (magic : List Nat) :
    Nat → Nat → Option (List Nat)
  | 0, _ => none
  | f + 1, idx =>
    match findSub data magic idx with
    | none => none
    | some i =>
      match zl (data.drop i) with
      | some dec => if anchorOk dec then some dec else zlibLoop zl data magic f (i + 1)
      | none => zlibLoop zl data magic f (i + 1)

/-- The zlib pass: the three fixed header prefixes tried in order. -/
def scanZlib (zl : List Nat → Option (List Nat)) (data : List Nat) : Option (List Nat) :=
  match zlibLoop zl data [0x78, 0x9c] (data.length + 1) 0 with
  | some dec => some dec
  | none =>
    match zlibLoop zl data [0x78, 0x01] (data.length + 1) 0 with
    | some dec => some dec
    | none => zlibLoop zl data [0x78, 0xda] (data.length + 1) 0

/-- `scan_compressed`, with the two decompressors passed as oracles. -/
def scan_compressed (gz zl : List Nat → Option (List Nat)) (data : List Nat) :
    Option (List Nat) :=
  match gzipScan gz data with
  | some dec => some dec
  | none => scanZlib zl data

/-- The fallback branch of `process` (lines 380-390): invoke the compressed
scan and report its result, tagged as recovered via fallback. -/
def fallbackResult (gz zl : List Nat → Option (List Nat)) (data : List Nat) :
    Option (List Nat × Bool) :=
  match scan_compressed gz zl data with
  | some x => if x.isEmpty then none else some (x, true)
  | none => none

/-- The extraction core of `process` (lines 356-390), stripped of its I/O: run
the structured decode (an escaped exception leaves `xml = None`); on a run that
returned, take `found_xml` or, failing that, the same object-table scan; a
truthy result is returned tagged as structured (`false`), otherwise the
compressed fallback is tried, its result tagged `true`. -/
def extract (gz zl : List Nat → Option (List Nat)) (data : List Nat) :
    Option (List Nat × Bool) :=
  let xmlOpt : Option (List Nat) :=
    match run data with
    | (.ok _, st) =>
      match st.found_xml with
      | some x => some x
      | none => objScan st.objects st.objects
    | (.error _, _) => none
  match xmlOpt with
  | some x => if x.isEmpty then fallbackResult gz zl data else some (x, false)
  | none => fallbackResult gz zl data

/-! ### Wire-format encoders

Used to build the synthetic input buffers the claims quantify over. -/

/-- Little-endian encoding of `v` into exactly `w` bytes. -/
def leBytes : Nat → Nat → List Nat
  | 0, _ => []
  | w + 1, v => v % 256 :: leBytes w (v / 256)

/-- Encoding of a signed 32-bit integer as the decoder's `int32` reads it. -/
def int32Enc (z : Int) : List Nat := leBytes 4 (z % (2 ^ 32 : Int)).toNat

/-- LEB128-style encoding matching `NrbfReader.varint` (7 bits per byte, high
bit continues). -/
def varintEnc (n : Nat) : List Nat :=
  if n < 128 then [n] else (n % 128 + 128) :: varintEnc (n / 128)
termination_by n
decreasing_by exact Nat.div_lt_self (by omega) (by norm_num)

/-- Length-prefixed string encoding matching `NrbfReader.lps`. -/
def lpsEnc (s : List Nat) : List Nat := varintEnc s.length ++ s

/-! ### Decode lemmas for the encoders -/

theorem leBytes_length (w v : Nat) : (leBytes w v).length = w := by
  induction w generalizing v with
  | zero => rfl
  | succ w ih => simp [leBytes, ih]

theorem leU_leBytes (w v : Nat) (h : v < 256 ^ w) : leU (leBytes w v) = v := by
  induction w generalizing v with
  | zero =>
    have hv : v = 0 := by simpa using h
    simp [hv, leBytes, leU]
  | succ w ih =>
    have hdiv : v / 256 < 256 ^ w := by
      rw [Nat.div_lt_iff_lt_mul (by norm_num)]
      calc v < 256 ^ (w + 1) := h
        _ = 256 ^ w * 256 := by ring
    simp only [leBytes, leU, ih _ hdiv]
    omega

/-- Reading numbers apart: OR with a left-shifted value is addition when the
low value fits below the shift. -/
theorem or_shift_eq_add {s a : Nat} (b : Nat) (h : a < 2 ^ s) :
    a ||| b <<< s = a + b * 2 ^ s := by
  induction s generalizing a b with
  | zero =>
    have : a = 0 := by omega
    subst this
    simp [Nat.shiftLeft_eq]
  | succ s ih =>
    have hmod : (b <<< (s + 1)) % 2 = 0 := by
      rw [Nat.shiftLeft_eq, pow_succ, ← Nat.mul_assoc]
      exact Nat.mul_mod_left _ 2
    have hdiv : (b <<< (s + 1)) / 2 = b <<< s := by
      rw [Nat.shiftLeft_eq, Nat.shiftLeft_eq, pow_succ]
      rw [← Nat.mul_assoc, Nat.mul_div_cancel _ (by norm_num)]
    have h2 : (a ||| b <<< (s + 1)) / 2 = a / 2 + b * 2 ^ s := by
      rw [Nat.or_div_two, hdiv, ih b (by rw [pow_succ] at h; omega)]
    have h3 : (a ||| b <<< (s + 1)) % 2 = a % 2 := by
      rcases Nat.mod_two_eq_zero_or_one a with ha | ha
      · rcases Nat.mod_two_eq_zero_or_one (a ||| b <<< (s + 1)) with hx | hx
        · omega
        · rw [Nat.or_mod_two_eq_one] at hx
          omega
      · have : (a ||| b <<< (s + 1)) % 2 = 1 := Nat.or_mod_two_eq_one.mpr (Or.inl ha)
        omega
    have h4 := Nat.div_add_mod (a ||| b <<< (s + 1)) 2
    have h5 := Nat.div_add_mod a 2
    have h6 : b * (2 ^ s * 2) = 2 * (b * 2 ^ s) := by ring
    rw [pow_succ]
    omega

set_option maxRecDepth 4000 in
theorem byte_and_128 : ∀ b, b < 256 → ((b &&& 128 == 0) = decide (b < 128)) := by
  decide

theorem readN_exact (st : St) (n : Nat) (xs rest : List Nat)
    (hs : st.stream = xs ++ rest) (hn : xs.length = n) :
    readN n st = (.ok xs, { st with stream := rest }) := by
  subst hn
  simp [readN, hs, List.take_left, List.drop_left]

theorem int32_enc (st : St) (z : Int) (rest : List Nat)
    (hs : st.stream = int32Enc z ++ rest) (h1 : -2 ^ 31 ≤ z) (h2 : z < 2 ^ 31) :
    int32 st = (.ok z, { st with stream := rest }) := by
  have hlen : (int32Enc z).length = 4 := leBytes_length 4 _
  have hread := readN_exact st 4 (int32Enc z) rest hs hlen
  simp only [int32, mBind, hread]
  have hm : (z % (2 ^ 32 : Int)).toNat < 256 ^ 4 := by omega
  have hval : leU (int32Enc z) = (z % (2 ^ 32 : Int)).toNat := leU_leBytes 4 _ hm
  rw [hlen, hval, if_neg (by omega)]
  have hz : toSigned (z % (2 ^ 32 : Int)).toNat 4 = z := by
    rw [toSigned]
    split <;> omega
  rw [hz]

theorem varintAux_enc (k : Nat) : ∀ (n r shift : Nat) (st : St) (rest : List Nat),
    st.stream = varintEnc n ++ rest → n < 2 ^ (7 * (k + 1)) → r < 2 ^ shift →
    varintAux (k + 1) r shift st = (.ok (r + n * 2 ^ shift), { st with stream := rest }) := by
  induction k with
  | zero =>
    intro n r shift st rest hs hn hr
    have hn128 : n < 128 := by norm_num at hn; omega
    rw [varintEnc, if_pos hn128] at hs
    simp only [varintAux, mBind, byte, hs, List.cons_append]
    have ha : n &&& 127 = n := by
      rw [Nat.and_pow_two_sub_one_eq_mod n 7]
      omega
    have hb : (n &&& 128 == 0) = true := by
      rw [byte_and_128 n (by omega)]
      simp [hn128]
    simp [ha, hb, mOk, or_shift_eq_add n hr]
  | succ k ih =>
    intro n r shift st rest hs hn hr
    by_cases hn128 : n < 128
    · rw [varintEnc, if_pos hn128] at hs
      simp only [varintAux, mBind, byte, hs, List.cons_append]
      have ha : n &&& 127 = n := by
        rw [Nat.and_pow_two_sub_one_eq_mod n 7]
        omega
      have hb : (n &&& 128 == 0) = true := by
        rw [byte_and_128 n (by omega)]
        simp [hn128]
      simp [ha, hb, mOk, or_shift_eq_add n hr]
    · rw [varintEnc, if_neg hn128] at hs
      conv_lhs => rw [varintAux]
      simp only [mBind, byte, hs, List.cons_append]
      have hblt : n % 128 + 128 < 256 := by omega
      have ha : n % 128 + 128 &&& 127 = n % 128 := by
        rw [Nat.and_pow_two_sub_one_eq_mod _ 7]
        omega
      have hb : (n % 128 + 128 &&& 128 == 0) = false := by
        rw [byte_and_128 _ hblt]
        simp
      simp only [ha, hb, Bool.false_eq_true, if_false]
      have hr' : r ||| (n % 128) <<< shift = r + n % 128 * 2 ^ shift :=
        or_shift_eq_add _ hr
      rw [hr']
      have hrlt : r + n % 128 * 2 ^ shift < 2 ^ (shift + 7) := by
        have h127 : n % 128 * 2 ^ shift ≤ 127 * 2 ^ shift :=
          Nat.mul_le_mul_right _ (by omega)
        have h2p : (2 : Nat) ^ (shift + 7) = 128 * 2 ^ shift := by
          rw [pow_add]; ring
        omega
      have hdivlt : n / 128 < 2 ^ (7 * (k + 1)) := by
        rw [Nat.div_lt_iff_lt_mul (by norm_num)]
        calc n < 2 ^ (7 * (k + 2)) := hn
          _ = 2 ^ (7 * (k + 1)) * 128 := by
            rw [show 7 * (k + 2) = 7 * (k + 1) + 7 by ring, pow_add]
            norm_num
      rw [ih (n / 128) _ (shift + 7)
        { st with stream := varintEnc (n / 128) ++ rest } rest rfl hdivlt hrlt]
      have harith : r + n % 128 * 2 ^ shift + n / 128 * 2 ^ (shift + 7) =
          r + n * 2 ^ shift := by
        have hn' : n % 128 + 128 * (n / 128) = n := by omega
        calc r + n % 128 * 2 ^ shift + n / 128 * 2 ^ (shift + 7)
            = r + (n % 128 + 128 * (n / 128)) * 2 ^ shift := by rw [pow_add]; ring
          _ = r + n * 2 ^ shift := by rw [hn']
      rw [harith]

theorem varint_enc (st : St) (n : Nat) (rest : List Nat)
    (hs : st.stream = varintEnc n ++ rest) (hn : n < 2 ^ 35) :
    varint st = (.ok n, { st with stream := rest }) := by
  have := varintAux_enc 4 n 0 0 st rest hs (by norm_num at hn ⊢; omega) (by norm_num)
  simpa [varint] using this

theorem lps_enc (st : St) (s rest : List Nat)
    (hs : st.stream = lpsEnc s ++ rest) (hn : s.length < 2 ^ 35) :
    lps st = (.ok s, { st with stream := rest }) := by
  rw [lpsEnc, List.append_assoc] at hs
  have hv := varint_enc st s.length (s ++ rest) hs hn
  simp only [lps, mBind, hv]
  exact readN_exact _ _ s rest rfl rfl

/-! ### Symbolic-execution step lemmas -/

theorem mBind_ok {α β : Type} {x : M α} {k : α → M β} {st st' : St} {a : α}
    (hx : x st = (.ok a, st')) : mBind x k st = k a st' := by
  simp [mBind, hx]

theorem int32Enc_length (z : Int) : (int32Enc z).length = 4 := leBytes_length 4 _

/-- Executing a Header record (tag already consumed). -/
theorem header_step (f : Nat) (st : St) (root : Int) (rest : List Nat)
    (hs : st.stream = int32Enc root ++ (List.replicate 12 0 ++ rest))
    (h1 : -2 ^ 31 ≤ root) (h2 : root < 2 ^ 31) :
    record_of_type f 0 st = (.ok (.header root), { st with stream := rest }) := by
  have hi := int32_enc st root _ hs h1 h2
  simp only [record_of_type]
  norm_num
  rw [mBind_ok hi]
  rw [mBind_ok (readN_exact _ 12 (List.replicate 12 0) rest rfl (by simp))]
  simp [mOk]

/-- Executing a BinaryObjectString record (tag already consumed). -/
theorem string_step (f : Nat) (st : St) (soid : Int) (s rest : List Nat)
    (hs : st.stream = int32Enc soid ++ (lpsEnc s ++ rest))
    (h1 : -2 ^ 31 ≤ soid) (h2 : soid < 2 ^ 31) (h3 : s.length < 2 ^ 35) :
    record_of_type f 6 st =
      (.ok (.str s),
        { st with stream := rest, objects := dinsert soid (.str s) st.objects }) := by
  have hi := int32_enc st soid _ hs h1 h2
  simp only [record_of_type]
  norm_num
  rw [mBind_ok hi]
  rw [mBind_ok (lps_enc _ s rest rfl h3)]
  simp [setObj, mBind, mOk]

end NRBF

namespace NRBF

theorem TARGET_FIELD_length : TARGET_FIELD.length = 30 := rfl

theorem mBind_assoc {α β γ : Type} (x : M α) (f : α → M β) (g : β → M γ) :
    mBind (mBind x f) g = mBind x fun a => mBind (f a) g := by
  funext st
  simp only [mBind]
  rcases hx : x st with ⟨r, st'⟩
  cases r <;> simp

theorem mBind_mOk {α β : Type} (a : α) (f : α → M β) : mBind (mOk a) f = f a := by
  funext st
  simp [mBind, mOk]

theorem byte_cons (st : St) (b : Nat) (rest : List Nat) (hs : st.stream = b :: rest) :
    byte st = (.ok b, { st with stream := rest }) := by
  simp [byte, hs]

theorem setClass_run (oid : Int) (cd : ClassDef) (st : St) :
    setClass oid cd st = (.ok (), { st with classes := dinsert oid cd st.classes }) := rfl

theorem setObj_run (oid : Int) (v : DV) (st : St) :
    setObj oid v st = (.ok (), { st with objects := dinsert oid v st.objects }) := rfl

theorem capture_hit (st : St) (s : List Nat) (h : 100 < s.length) :
    capture TARGET_FIELD (.str s) st = (.ok (), { st with found_xml := some s }) := by
  simp [capture, h]

theorem classStr_step (f : Nat) (st : St) (oid lib soid : Int) (cname s rest : List Nat)
    (hs : st.stream = int32Enc oid ++ (lpsEnc cname ++ (int32Enc 1 ++ (lpsEnc TARGET_FIELD
      ++ ([1] ++ (int32Enc lib ++ ([6] ++ (int32Enc soid ++ (lpsEnc s ++ rest)))))))))
    (ho1 : -2 ^ 31 ≤ oid) (ho2 : oid < 2 ^ 31)
    (hl1 : -2 ^ 31 ≤ lib) (hl2 : lib < 2 ^ 31)
    (hso1 : -2 ^ 31 ≤ soid) (hso2 : soid < 2 ^ 31)
    (hcn : cname.length < 2 ^ 35) (hs1 : 100 < s.length) (hs2 : s.length < 2 ^ 35) :
    class_record (f + 1) true false st =
      (.ok (.obj cname [(TARGET_FIELD, .str s)]),
        { st with
          stream := rest,
          classes := dinsert oid ⟨cname, [TARGET_FIELD], [1], [Extra.str]⟩ st.classes,
          objects := dinsert oid (.obj cname [(TARGET_FIELD, .str s)])
            (dinsert soid (.str s) st.objects),
          found_xml := some s }) := by
  simp only [class_record]
  rw [mBind_ok (int32_enc st oid _ hs ho1 ho2)]
  rw [mBind_ok (lps_enc _ cname _ rfl hcn)]
  rw [mBind_ok (int32_enc _ 1 _ rfl (by norm_num) (by norm_num))]
  simp only [Int.toNat_one, mList, mExtras, mBind_assoc, mBind_mOk, if_true]
  rw [mBind_ok (lps_enc _ TARGET_FIELD _ rfl (by rw [TARGET_FIELD_length]; norm_num))]
  dsimp only
  simp only [List.cons_append]
  rw [mBind_ok (byte_cons _ 1 _ rfl)]
  rw [show read_extra 1 = mOk Extra.str from rfl]
  simp only [mBind_mOk, Bool.false_eq_true, if_false, mBind_assoc]
  rw [mBind_ok (int32_enc _ lib _ rfl hl1 hl2)]
  simp only [mBind_mOk]
  rw [mBind_ok (setClass_run _ _ _)]
  dsimp only
  simp only [List.nil_append]
  simp only [read_class_values, zip3]
  simp [readFields, record, mBind_assoc]
  rw [mBind_ok (byte_cons _ 6 _ rfl)]
  rw [mBind_ok (string_step f _ soid s _ rfl hso1 hso2 hs2)]
  dsimp only
  rw [mBind_assoc]
  rw [mBind_ok (capture_hit _ s hs1)]
  simp only [mBind_mOk]
  rw [mBind_ok (setObj_run _ _ _)]
  simp [mOk, dinsert]

end NRBF

namespace NRBF

theorem runLoop_continue (f : Nat) (st st' : St) (r : DV)
    (hrec : record (st.stream.length + 1) st = (.ok r, st'))
    (hnend : isEnd r = false) (hnf : foundTruthy st' = false) :
    runLoop (f + 1) st = runLoop f st' := by
  simp only [runLoop, hrec, hnend, hnf, Bool.false_eq_true, if_false]

theorem runLoop_found (f : Nat) (st st' : St) (r : DV)
    (hrec : record (st.stream.length + 1) st = (.ok r, st'))
    (hnend : isEnd r = false) (hf : foundTruthy st' = true) :
    runLoop (f + 1) st = (.ok (), st') := by
  simp only [runLoop, hrec, hnend, hf, Bool.false_eq_true, if_false, if_true]

/-- Header record encoding: tag 0, root id, 12 reserved bytes. -/
def headerEnc (root : Int) : List Nat := 0 :: (int32Enc root ++ List.replicate 12 0)

/-- A ClassWithMembersAndTypes record with a single String-typed field named
the target, whose value is an inline BinaryObjectString `s`. -/
def classStrEnc (oid lib soid : Int) (cname s : List Nat) : List Nat :=
  5 :: (int32Enc oid ++ (lpsEnc cname ++ (int32Enc 1 ++ (lpsEnc TARGET_FIELD
    ++ ([1] ++ (int32Enc lib ++ ([6] ++ (int32Enc soid ++ lpsEnc s))))))))

/-- The C1 input family: Header, exactly one class record carrying the target
string, the End marker. -/
def c1Buffer (root oid lib soid : Int) (cname s : List Nat) : List Nat :=
  headerEnc root ++ (classStrEnc oid lib soid cname s ++ [11])

theorem c1_run (root oid lib soid : Int) (cname s : List Nat)
    (hr1 : -2 ^ 31 ≤ root) (hr2 : root < 2 ^ 31)
    (ho1 : -2 ^ 31 ≤ oid) (ho2 : oid < 2 ^ 31)
    (hl1 : -2 ^ 31 ≤ lib) (hl2 : lib < 2 ^ 31)
    (hso1 : -2 ^ 31 ≤ soid) (hso2 : soid < 2 ^ 31)
    (hcn : cname.length < 2 ^ 35) (hs1 : 100 < s.length) (hs2 : s.length < 2 ^ 35) :
    run (c1Buffer root oid lib soid cname s) =
      (.ok (),
        ⟨[11], dinsert oid ⟨cname, [TARGET_FIELD], [1], [Extra.str]⟩ [],
          dinsert oid (.obj cname [(TARGET_FIELD, .str s)])
            (dinsert soid (.str s) []),
          [], some s⟩) := by
  have hne : s.isEmpty = false := by
    cases s
    · simp at hs1
    · simp
  have hloop : runLoop ((c1Buffer root oid lib soid cname s).length + 1)
      (initSt (c1Buffer root oid lib soid cname s)) =
      (.ok (),
        ⟨[11], dinsert oid ⟨cname, [TARGET_FIELD], [1], [Extra.str]⟩ [],
          dinsert oid (.obj cname [(TARGET_FIELD, .str s)])
            (dinsert soid (.str s) []),
          [], some s⟩) := by
    have hrec1 : record ((initSt (c1Buffer root oid lib soid cname s)).stream.length + 1)
        (initSt (c1Buffer root oid lib soid cname s)) =
        (.ok (.header root),
          ⟨classStrEnc oid lib soid cname s ++ [11], [], [], [], none⟩) := by
      simp only [record]
      rw [mBind_ok (byte_cons _ 0 (int32Enc root ++ (List.replicate 12 0
        ++ (classStrEnc oid lib soid cname s ++ [11])))
        (by simp [initSt, c1Buffer, headerEnc, List.append_assoc]))]
      rw [header_step _ _ root _ rfl hr1 hr2]
      simp [initSt]
    rw [runLoop_continue _ _ _ _ hrec1 (by simp [isEnd]) (by simp [foundTruthy])]
    obtain ⟨F, hF⟩ : ∃ F, (c1Buffer root oid lib soid cname s).length = F + 1 :=
      ⟨(c1Buffer root oid lib soid cname s).length - 1, by simp [c1Buffer, headerEnc]⟩
    rw [hF]
    have hrec2 : record ((⟨classStrEnc oid lib soid cname s ++ [11], [], [], [],
        none⟩ : St).stream.length + 1)
        ⟨classStrEnc oid lib soid cname s ++ [11], [], [], [], none⟩ =
        (.ok (.obj cname [(TARGET_FIELD, .str s)]),
          ⟨[11], dinsert oid ⟨cname, [TARGET_FIELD], [1], [Extra.str]⟩ [],
            dinsert oid (.obj cname [(TARGET_FIELD, .str s)])
              (dinsert soid (.str s) []),
            [], some s⟩) := by
      simp only [record]
      rw [mBind_ok (byte_cons _ 5 (int32Enc oid ++ (lpsEnc cname ++ (int32Enc 1
        ++ (lpsEnc TARGET_FIELD ++ ([1] ++ (int32Enc lib ++ ([6] ++ (int32Enc soid
        ++ (lpsEnc s ++ [11])))))))))
        (by simp [classStrEnc, List.append_assoc]))]
      have hg : ((⟨classStrEnc oid lib soid cname s ++ [11], [], [], [],
          none⟩ : St).stream.length) = (classStrEnc oid lib soid cname s).length + 1 := by
        simp
      rw [hg]
      have hrot : record_of_type ((classStrEnc oid lib soid cname s).length + 1) 5 =
          class_record ((classStrEnc oid lib soid cname s).length + 1) true false := by
        simp [record_of_type]
      rw [hrot]
      rw [classStr_step (classStrEnc oid lib soid cname s).length _ oid lib soid cname s
        [11] rfl ho1 ho2 hl1 hl2 hso1 hso2 hcn hs1 hs2]
    rw [runLoop_found _ _ _ _ hrec2 (by simp [isEnd]) (by simp [foundTruthy, hne])]
  simp only [run, hloop]

end NRBF

namespace NRBF

/-- C1: for every input buffer consisting of a Header record, exactly one class
record with a single String-typed field named the target whose inline string
value is longer than 100 characters, and the End marker, the decode session
captures exactly that string, and the extractor returns it via the structured
path (the compressed fallback is not invoked, for every decompression oracle). -/
theorem C1_single_class_capture (root oid lib soid : Int) (cname s : List Nat)
    (hr1 : -2 ^ 31 ≤ root) (hr2 : root < 2 ^ 31)
    (ho1 : -2 ^ 31 ≤ oid) (ho2 : oid < 2 ^ 31)
    (hl1 : -2 ^ 31 ≤ lib) (hl2 : lib < 2 ^ 31)
    (hso1 : -2 ^ 31 ≤ soid) (hso2 : soid < 2 ^ 31)
    (hcn : cname.length < 2 ^ 35) (hs1 : 100 < s.length) (hs2 : s.length < 2 ^ 35) :
    (run (c1Buffer root oid lib soid cname s)).1 = .ok () ∧
    (run (c1Buffer root oid lib soid cname s)).2.found_xml = some s ∧
    ∀ gz zl, extract gz zl (c1Buffer root oid lib soid cname s) = some (s, false) := by
  have hne : s.isEmpty = false := by
    cases s
    · simp at hs1
    · simp
  have h := c1_run root oid lib soid cname s hr1 hr2 ho1 ho2 hl1 hl2 hso1 hso2
    hcn hs1 hs2
  refine ⟨by rw [h], by rw [h], fun gz zl => ?_⟩
  simp only [extract, h]
  simp [hne]

theorem C1_witness :
    (run (c1Buffer 1 2 3 4 [67] (List.replicate 101 97))).1 = .ok () ∧
    (run (c1Buffer 1 2 3 4 [67] (List.replicate 101 97))).2.found_xml
      = some (List.replicate 101 97) :=
  have h := C1_single_class_capture 1 2 3 4 [67] (List.replicate 101 97)
    (by norm_num) (by norm_num) (by norm_num) (by norm_num) (by norm_num)
    (by norm_num) (by norm_num) (by norm_num) (by simp) (by simp) (by simp)
  ⟨h.1, h.2.1⟩

end NRBF

namespace NRBF

/-- C10: a MemberPrimitiveTyped record whose type code is outside the
recognized set (not Decimal 5, not String 18, and absent from the fixed-width
`sizes` table) yields the Null value with no error, consuming only the
type-code byte: the cursor is left exactly after it, and `primitive` itself
touches no further state. -/
theorem C10_unknown_primitive_typed (f : Nat) (st : St) (tc : Nat) (rest : List Nat)
    (hs : st.stream = tc :: rest) (h5 : tc ≠ 5) (h18 : tc ≠ 18)
    (hsz : primSize tc = none) :
    record_of_type f 8 st = (.ok .null, { st with stream := rest }) ∧
    primitive tc { st with stream := rest } = (.ok .null, { st with stream := rest }) := by
  have hb5 : (tc == 5) = false := by simp [h5]
  have hb18 : (tc == 18) = false := by simp [h18]
  have hprim : ∀ st' : St, primitive tc st' = (.ok .null, st') := by
    intro st'
    simp [primitive, hb5, hb18, hsz, mOk]
  constructor
  · simp only [record_of_type]
    norm_num
    rw [mBind_ok (byte_cons _ tc rest hs)]
    exact hprim _
  · exact hprim _

theorem C10_witness :
    record_of_type 0 8 ⟨[42, 7, 7], [], [], [], none⟩ =
      (.ok .null, ⟨[7, 7], [], [], [], none⟩) :=
  (C10_unknown_primitive_typed 0 ⟨[42, 7, 7], [], [], [], none⟩ 42 [7, 7]
    rfl (by decide) (by decide) rfl).1

end NRBF

namespace NRBF

/-- Number of object-table entries whose id is not in the visited set: the
decreasing measure of the resolver loop. -/
def unseenCount (objects : List (Int × DV)) (seen : List Int) : Nat :=
  (objects.filter (fun p => decide (p.1 ∉ seen))).length

theorem length_filter_mono {α : Type} (p q : α → Bool)
    (h : ∀ a, q a = true → p a = true) :
    ∀ l : List α, (l.filter q).length ≤ (l.filter p).length := by
  intro l
  induction l with
  | nil => simp
  | cons a tl ih =>
    by_cases hq : q a = true
    · rw [List.filter_cons_of_pos hq, List.filter_cons_of_pos (h a hq)]
      simpa using ih
    · rw [List.filter_cons_of_neg (by simpa using hq)]
      rcases hp : p a with h0 | h1
      · rw [List.filter_cons_of_neg (by simp [hp])]
        exact ih
      · rw [List.filter_cons_of_pos hp]
        simp
        omega

theorem unseenCount_cons_le (objects : List (Int × DV)) (seen : List Int) (rid : Int) :
    unseenCount objects (rid :: seen) ≤ unseenCount objects seen := by
  apply length_filter_mono
  intro a ha
  simp only [decide_eq_true_eq] at ha ⊢
  intro hmem
  exact ha (List.mem_cons_of_mem _ hmem)

theorem unseenCount_decrease (objects : List (Int × DV)) (seen : List Int) (rid : Int)
    (hmem : rid ∉ seen) (u : DV) (hl : dlookup rid objects = some u) :
    unseenCount objects (rid :: seen) < unseenCount objects seen := by
  induction objects with
  | nil => simp [dlookup] at hl
  | cons hd tl ih =>
    rcases hd with ⟨k, v⟩
    rw [dlookup] at hl
    unfold unseenCount
    by_cases hk : k = rid
    · subst hk
      rw [List.filter_cons_of_neg (by simp)]
      rw [List.filter_cons_of_pos (by simpa using hmem)]
      have hle := unseenCount_cons_le tl seen k
      unfold unseenCount at hle
      simp only [List.length_cons]
      omega
    · rw [if_neg (by simpa using hk)] at hl
      have hlt := ih hl
      unfold unseenCount at hlt
      by_cases hks : k ∈ seen
      · rw [List.filter_cons_of_neg (by simp [hks]),
          List.filter_cons_of_neg (by simp [hks])]
        exact hlt
      · rw [List.filter_cons_of_pos (by simp [hks, hk]),
          List.filter_cons_of_pos (by simp [hks])]
        simp only [List.length_cons]
        omega



theorem resolveAux_step_stable (objects : List (Int × DV)) :
    ∀ (fuel : Nat) (seen : List Int) (v : DV),
      unseenCount objects seen + 2 ≤ fuel →
      resolveAux objects fuel seen v = resolveAux objects (fuel + 1) seen v := by
  intro fuel
  induction fuel with
  | zero => intro seen v h; omega
  | succ f ih =>
    intro seen v h
    cases v with
    | ref rid =>
      simp only [resolveAux]
      by_cases hmem : rid ∈ seen
      · simp [hmem]
      · simp only [hmem, if_false, if_neg hmem]
        rcases hl : dlookup rid objects with _ | u
        · obtain ⟨f', rfl⟩ : ∃ f', f = f' + 1 := ⟨f - 1, by omega⟩
          simp [Option.getD, resolveAux]
        · have hdec := unseenCount_decrease objects seen rid hmem u hl
          exact ih (rid :: seen) _ (by omega)
    | null => simp [resolveAux]
    | bool b => simp [resolveAux]
    | int z => simp [resolveAux]
    | float raw => simp [resolveAux]
    | str s => simp [resolveAux]
    | bytes raw => simp [resolveAux]
    | header root => simp [resolveAux]
    | endRec => simp [resolveAux]
    | obj c fs => simp [resolveAux]
    | arr es => simp [resolveAux]

theorem resolveAux_add_stable (objects : List (Int × DV)) (d : Nat) :
    ∀ (fuel : Nat) (seen : List Int) (v : DV),
      unseenCount objects seen + 2 ≤ fuel →
      resolveAux objects fuel seen v = resolveAux objects (fuel + d) seen v := by
  induction d with
  | zero => intro fuel seen v h; rfl
  | succ d ih =>
    intro fuel seen v h
    rw [resolveAux_step_stable objects fuel seen v h]
    rw [ih (fuel + 1) seen v (by omega)]
    rw [show fuel + 1 + d = fuel + (d + 1) from by omega]

/-- C8: the reference resolver stabilizes within a fuel bound given by the
object-table size (its visited-set bookkeeping makes every loop iteration
consume a fresh table id, so it terminates within that many steps); a
reference to a missing id yields the missing-value sentinel (Python `None`,
i.e. `DV.null`); a self-referential id is detected by the visited set and the
last value seen is returned instead of looping. -/
theorem C8_resolver_termination (objects : List (Int × DV)) (v : DV) :
    (∀ fuel, objects.length + 2 ≤ fuel →
      resolveAux objects fuel [] v = resolve objects v) ∧
    (∀ rid, dlookup rid objects = none → resolve objects (.ref rid) = .null) ∧
    (∀ rid, dlookup rid objects = some (.ref rid) →
      resolve objects (.ref rid) = .ref rid) := by
  have hbase : unseenCount objects [] + 2 ≤ objects.length + 2 := by
    have : unseenCount objects [] ≤ objects.length := by
      unfold unseenCount
      exact List.length_filter_le _ _
    omega
  refine ⟨?_, ?_, ?_⟩
  · intro fuel hf
    obtain ⟨d, rfl⟩ : ∃ d, fuel = (objects.length + 2) + d :=
      ⟨fuel - (objects.length + 2), by omega⟩
    rw [resolve, resolveAux_add_stable objects d (objects.length + 2) [] v hbase]
  · intro rid hl
    rw [resolve]
    simp [resolveAux, hl]
  · intro rid hl
    rw [resolve]
    simp [resolveAux, hl]

theorem C8_witness :
    resolveAux [((1 : Int), DV.ref 1)] 5 [] (.ref 1) =
      resolve [((1 : Int), DV.ref 1)] (.ref 1) ∧
    resolve [((1 : Int), DV.ref 1)] (.ref 1) = .ref 1 ∧
    resolve ([] : List (Int × DV)) (.ref 7) = .null :=
  ⟨(C8_resolver_termination [((1 : Int), DV.ref 1)] (.ref 1)).1 5 (by norm_num),
   (C8_resolver_termination [((1 : Int), DV.ref 1)] (.ref 1)).2.2 1 (by simp [dlookup]),
   (C8_resolver_termination [] (.ref 7)).2.1 7 rfl⟩

end NRBF

namespace NRBF

/-- C6 counterexample: a length-prefixed string read whose declared length (5)
exceeds the remaining bytes (2) returns the silently shortened string with no
error — the claim demands a truncation failure here. -/
theorem C6_counterexample :
    lps ⟨[5, 10, 20], [], [], [], none⟩ =
      (.ok [10, 20], ⟨[], [], [], [], none⟩) := rfl

/-- C6 amended: a fixed-width primitive read does fail with the truncation
error when fewer bytes remain than its declared width, but a length-prefixed
string read whose declared length exceeds the remaining bytes silently returns
the shortened remainder with no error. -/
theorem C6_short_reads (tc sz : Nat) (st : St) (n : Nat) (bytes : List Nat) (stL : St)
    (hsz : primSize tc = some sz) (hshort : st.stream.length < sz)
    (hL : stL.stream = varintEnc n ++ bytes) (hblen : bytes.length < n)
    (hn : n < 2 ^ 35) :
    primitive tc st = (.error .short, { st with stream := [] }) ∧
    lps stL = (.ok bytes, { stL with stream := [] }) := by
  constructor
  · have h5 : (tc == 5) = false := by
      rcases Nat.decEq tc 5 with h | h
      · simp
        omega
      · subst h
        simp [primSize] at hsz
    have h18 : (tc == 18) = false := by
      rcases Nat.decEq tc 18 with h | h
      · simp
        omega
      · subst h
        simp [primSize] at hsz
    simp only [primitive, h5, h18, Bool.false_eq_true, if_false, hsz]
    have htake : st.stream.take sz = st.stream := List.take_of_length_le (by omega)
    have hdrop : st.stream.drop sz = [] := List.drop_eq_nil_of_le (by omega)
    simp [mBind, readN, htake, hdrop, hshort]
  · have hv := varint_enc stL n bytes hL hn
    simp only [lps, mBind, hv]
    have htake : bytes.take n = bytes := List.take_of_length_le (by omega)
    have hdrop : bytes.drop n = [] := List.drop_eq_nil_of_le (by omega)
    simp [readN, htake, hdrop]

theorem C6_witness :
    primitive 8 ⟨[1, 2], [], [], [], none⟩ =
      (.error .short, ⟨[], [], [], [], none⟩) ∧
    lps ⟨[7, 1, 2], [], [], [], none⟩ = (.ok [1, 2], ⟨[], [], [], [], none⟩) :=
  C6_short_reads 8 4 ⟨[1, 2], [], [], [], none⟩ 7 [1, 2] ⟨[7, 1, 2], [], [], [], none⟩
    rfl (by simp) (by simp [varintEnc]) (by simp) (by norm_num)

/-- C5 counterexample: the empty buffer exhausts the stream mid-record with no
target captured, yet the session succeeds (the `except EOFError: pass` makes
truncation benign unconditionally) — the claim demands a propagated failure. -/
theorem C5_counterexample :
    run [] = (.ok (), ⟨[], [], [], [], none⟩) := by
  have hloop : runLoop (([] : List Nat).length + 1) (initSt []) =
      (.error .eof, ⟨[], [], [], [], none⟩) := by
    simp [runLoop, record, byte, mBind, initSt, mErr]
  simp only [run, hloop]

/-- C5 amended: stream exhaustion signalled as `EOFError` (a byte read at end
of input) is benign unconditionally — the session succeeds whether or not a
value was captured; exhaustion inside a fixed-width read raises the non-EOF
`short` error, which (absent a captured or salvageable value) is propagated as
a session failure. -/
theorem C5_truncation (data : List Nat) (st' : St) :
    (runLoop (data.length + 1) (initSt data) = (.error .eof, st') →
      run data = (.ok (), st')) ∧
    (∀ e, e ≠ .eof → runLoop (data.length + 1) (initSt data) = (.error e, st') →
      foundTruthy st' = false → objScan st'.objects st'.objects = none →
      run data = (.error e, st')) := by
  constructor
  · intro hloop
    simp only [run, hloop]
  · intro e hne hloop hft hscan
    simp only [run, hloop]
    cases e with
    | eof => exact absurd rfl hne
    | short => simp [hft, hscan]
    | unknownMeta mid => simp [hft, hscan]
    | unknownRecord rt => simp [hft, hscan]
    | fuel => simp [hft, hscan]

theorem C5_witness :
    run [] = (.ok (), ⟨[], [], [], [], none⟩) ∧
    run [0] = (.error .short, ⟨[], [], [], [], none⟩) := by
  constructor
  · exact (C5_truncation [] ⟨[], [], [], [], none⟩).1
      (by simp [runLoop, record, byte, mBind, initSt, mErr])
  · exact (C5_truncation [0] ⟨[], [], [], [], none⟩).2 .short (by decide)
      (by simp [runLoop, record, record_of_type, byte, readN, int32, mBind, initSt, mErr])
      (by simp [foundTruthy]) (by simp [objScan])

end NRBF

namespace NRBF

/-- The salvage candidate drawn from one object-table entry: the target field
of a dict value, resolved, accepted if a string longer than 100. -/
def salvageCandidate (objects : List (Int × DV)) (p : Int × DV) : Option (List Nat) :=
  match p.2 with
  | .obj _ fields =>
    match dlookup TARGET_FIELD fields with
    | some fv => textOver100 (resolve objects fv)
    | none => none
  | _ => none

theorem objScan_eq_findSome (objects : List (Int × DV)) (l : List (Int × DV)) :
    objScan objects l = l.findSome? (salvageCandidate objects) := by
  induction l with
  | nil => simp [objScan]
  | cons hd tl ih =>
    rcases hd with ⟨oid, v⟩
    rw [List.findSome?_cons]
    cases v with
    | obj c fields =>
      rw [objScan]
      simp only [salvageCandidate]
      rcases hdl : dlookup TARGET_FIELD fields with _ | fv
      · simp [hdl, ih]
      · rcases ht : textOver100 (resolve objects fv) with _ | s
        · simp [hdl, ht, ih]
        · simp [hdl, ht]
    | null => simpa [objScan, salvageCandidate] using ih
    | bool b => simpa [objScan, salvageCandidate] using ih
    | int z => simpa [objScan, salvageCandidate] using ih
    | float raw => simpa [objScan, salvageCandidate] using ih
    | str s => simpa [objScan, salvageCandidate] using ih
    | bytes raw => simpa [objScan, salvageCandidate] using ih
    | header root => simpa [objScan, salvageCandidate] using ih
    | endRec => simpa [objScan, salvageCandidate] using ih
    | ref rid => simpa [objScan, salvageCandidate] using ih
    | arr es => simpa [objScan, salvageCandidate] using ih

/-- C2: when the decode loop raises a non-EOF error, `run` returns success
keeping the captured value if one is in hand; otherwise the object table is
scanned in insertion order — every dict entry whose field map contains the
target name has that field's value passed through the resolver, and the first
result that is a string longer than 100 becomes the target value; if no entry
qualifies, the original error is re-raised. -/
theorem C2_error_salvage (data : List Nat) (e : Err) (st' : St)
    (hloop : runLoop (data.length + 1) (initSt data) = (.error e, st'))
    (hne : e ≠ .eof) :
    run data =
      if foundTruthy st' then (.ok (), st')
      else
        match st'.objects.findSome? (salvageCandidate st'.objects) with
        | some s => (.ok (), { st' with found_xml := some s })
        | none => (.error e, st') := by
  cases e with
  | eof => exact absurd rfl hne
  | short => simp only [run, hloop, objScan_eq_findSome]
  | unknownMeta mid => simp only [run, hloop, objScan_eq_findSome]
  | unknownRecord rt => simp only [run, hloop, objScan_eq_findSome]
  | fuel => simp only [run, hloop, objScan_eq_findSome]

theorem C2_witness :
    run [255] = (.error (.unknownRecord 255), ⟨[], [], [], [], none⟩) := by
  have h := C2_error_salvage [255] (.unknownRecord 255) ⟨[], [], [], [], none⟩
    (by simp [runLoop, record, record_of_type, byte, mBind, initSt, mErr])
    (by decide)
  rw [h]
  simp [foundTruthy, salvageCandidate]

end NRBF

namespace NRBF

/-- One gzip attempt at offset `i`: decompress the suffix, accept only on a
recognizable anchor; a raised error or missing anchor yields nothing. -/
def gzipAttempt (gz : List Nat → Option (List Nat)) (data : List Nat) (i : Nat) :
    Option (List Nat) :=
  match gz (data.drop i) with
  | some dec => if anchorOk dec then some dec else none
  | none => none

def gzipSig (data : List Nat) (i : Nat) : Bool :=
  data.getD i 0 == 0x1f && data.getD (i + 1) 0 == 0x8b

theorem gzipScanList_eq (gz : List Nat → Option (List Nat)) (data : List Nat)
    (l : List Nat) :
    gzipScanList gz data l = (l.filter (gzipSig data)).findSome? (gzipAttempt gz data) := by
  induction l with
  | nil => simp [gzipScanList]
  | cons i tl ih =>
    rw [gzipScanList]
    by_cases hsig : gzipSig data i = true
    · rw [List.filter_cons_of_pos hsig, List.findSome?_cons]
      simp only [gzipSig] at hsig
      rw [if_pos hsig]
      simp only [gzipAttempt]
      rcases hgz : gz (data.drop i) with _ | dec
      · simpa using ih
      · by_cases ha : anchorOk dec = true
        · simp [ha]
        · simp only [ha, Bool.false_eq_true, if_false]
          simpa using ih
    · rw [List.filter_cons_of_neg hsig]
      simp only [gzipSig] at hsig
      rw [if_neg hsig]
      exact ih

theorem findSome?_ext {α β : Type} (f g : α → Option β) :
    ∀ l : List α, (∀ a ∈ l, f a = g a) → l.findSome? f = l.findSome? g := by
  intro l
  induction l with
  | nil => intro _; rfl
  | cons a tl ih =>
    intro h
    rw [List.findSome?_cons, List.findSome?_cons, h a (by simp)]
    rcases g a with _ | b
    · exact ih fun x hx => h x (by simp [hx])
    · rfl

/-- C9 amended: the gzip pass attempts a decompression exactly at the offsets
`i < length - 2` whose two bytes equal the gzip magic — the final offset at
which the two signature bytes fit (length - 2) is excluded by the loop bound —
taking the first attempt whose output contains an anchor and swallowing every
failing attempt; the result depends on the oracle only through those matching
offsets, so no attempt is made where a signature byte differs. -/
theorem C9_gzip_offsets (gz gz' : List Nat → Option (List Nat)) (data : List Nat)
    (hagree : ∀ i ∈ (List.range (data.length - 2)).filter (gzipSig data),
      gz (data.drop i) = gz' (data.drop i)) :
    gzipScan gz data =
      ((List.range (data.length - 2)).filter (gzipSig data)).findSome?
        (gzipAttempt gz data) ∧
    gzipScan gz data = gzipScan gz' data := by
  constructor
  · exact gzipScanList_eq gz data _
  · rw [gzipScan, gzipScan, gzipScanList_eq, gzipScanList_eq]
    apply findSome?_ext
    intro i hi
    simp only [gzipAttempt, hagree i hi]

/-- C9 counterexample: a buffer whose gzip signature sits at the last offset at
which the two signature bytes fit (offset 0 of a 2-byte buffer): with an
oracle that would succeed with an anchor-bearing output at every offset, the
scan still returns nothing — no attempt is made there, refuting the claim that
the last fitting offset is attempted. -/
theorem C9_counterexample :
    gzipSig [31, 139] 0 = true ∧
    anchorOk xmlAnchor = true ∧
    scan_compressed (fun _ => some xmlAnchor) (fun _ => none) [31, 139] = none := by
  refine ⟨rfl, rfl, ?_⟩
  rfl

theorem C9_witness :
    gzipScan (fun _ => some xmlAnchor) [31, 139, 0] = some xmlAnchor :=
  ((C9_gzip_offsets (fun _ => some xmlAnchor) (fun _ => some xmlAnchor) [31, 139, 0]
    (fun _ _ => rfl)).1).trans rfl

end NRBF

namespace NRBF

theorem capture_null (fname : List Nat) (st : St) :
    capture fname .null st = (.ok (), st) := by
  simp only [capture]
  split <;> rfl

/-- The skip branch of the member loop: a pending skip count of `k` assigns
Null to the next `k` member slots (bounded by the remaining fields) without
touching the stream, then decoding resumes normally. -/
theorem readFields_skip (F : Nat) :
    ∀ (flds : List (List Nat × Nat × Extra)) (k : Nat) (vals : List (List Nat × DV))
      (st : St),
      readFields F flds vals k st =
        readFields F (flds.drop k)
          ((flds.take k).foldl (fun acc p => dinsert p.1 .null acc) vals) 0 st := by
  intro flds
  induction flds with
  | nil =>
    intro k vals st
    cases k <;> simp [readFields]
  | cons p tl ih =>
    intro k vals st
    cases k with
    | zero => simp
    | succ m =>
      rcases p with ⟨nm, bt, ex⟩
      rw [readFields]
      simp only [Nat.succ_sub_one, if_pos (Nat.succ_pos m)]
      rw [ih m]
      simp [List.take_succ_cons, List.drop_succ_cons]

/-- C3 amended: a null-run placeholder of count `N ≥ 1` fills exactly `N`
member slots with Null and the next member is decoded from a fresh record; a
null-run of count `N = 0`, however, is consumed as a single Null member slot
(the empty placeholder list is still a Python list, so the current slot is
nulled and `skip` becomes -1). Uniformly: exactly `max N 1` slots are
assigned Null. Both count encodings behave alike: the one-byte tag 13 and the
four-byte tag 14. -/
theorem C3_nullrun_slots (f : Nat) (N : Nat) (nm : List Nat) (bt : Nat)
    (ex : Extra) (hbt : (bt == 0) = false)
    (flds : List (List Nat × Nat × Extra)) (vals : List (List Nat × DV)) :
    (∀ (st : St) (rest : List Nat), st.stream = 13 :: N :: rest → N < 256 →
      readFields (f + 1) ((nm, bt, ex) :: flds) vals 0 st =
        readFields (f + 1) (((nm, bt, ex) :: flds).drop (max N 1))
          ((((nm, bt, ex) :: flds).take (max N 1)).foldl
            (fun acc p => dinsert p.1 .null acc) vals) 0
          { st with stream := rest }) ∧
    (∀ (st : St) (rest : List Nat), st.stream = 14 :: (int32Enc (N : Int) ++ rest) →
      (N : Int) < 2 ^ 31 →
      readFields (f + 1) ((nm, bt, ex) :: flds) vals 0 st =
        readFields (f + 1) (((nm, bt, ex) :: flds).drop (max N 1))
          ((((nm, bt, ex) :: flds).take (max N 1)).foldl
            (fun acc p => dinsert p.1 .null acc) vals) 0
          { st with stream := rest }) := by
  have main : ∀ (st' : St) (rest : List Nat), st'.stream = rest →
      readFields (f + 1) flds (dinsert nm .null vals) (N - 1) st' =
      readFields (f + 1) (((nm, bt, ex) :: flds).drop (max N 1))
        ((((nm, bt, ex) :: flds).take (max N 1)).foldl
          (fun acc p => dinsert p.1 .null acc) vals) 0 st' := by
    intro st' rest hrest
    cases N with
    | zero =>
      simp [List.take_succ_cons, List.drop_succ_cons]
    | succ m =>
      rw [Nat.succ_sub_one, readFields_skip (f + 1) flds m]
      have hmax : max (m + 1) 1 = m + 1 := by omega
      rw [hmax]
      simp [List.take_succ_cons, List.drop_succ_cons]
  constructor
  · intro st rest hs hN
    rw [readFields]
    simp only [lt_self_iff_false, if_false, hbt, Bool.false_eq_true]
    have hrec : record (f + 1) st =
        (.ok (.arr (List.replicate N .null)), { st with stream := rest }) := by
      simp only [record]
      rw [mBind_ok (byte_cons st 13 (N :: rest) hs)]
      simp only [record_of_type]
      norm_num
      rw [mBind_ok (byte_cons _ N rest rfl)]
      simp [mOk]
    rw [mBind_ok hrec]
    simp only [List.length_replicate]
    rw [mBind_ok (capture_null nm _)]
    exact main _ rest rfl
  · intro st rest hs hN
    rw [readFields]
    simp only [lt_self_iff_false, if_false, hbt, Bool.false_eq_true]
    have hrec : record (f + 1) st =
        (.ok (.arr (List.replicate N .null)), { st with stream := rest }) := by
      simp only [record]
      rw [mBind_ok (byte_cons st 14 (int32Enc (N : Int) ++ rest) hs)]
      simp only [record_of_type]
      norm_num
      rw [mBind_ok (int32_enc _ (N : Int) rest rfl (by omega) hN)]
      simp [mOk]
    rw [mBind_ok hrec]
    simp only [List.length_replicate]
    rw [mBind_ok (capture_null nm _)]
    exact main _ rest rfl

theorem C3_witness :
    readFields 1 [([102], 2, Extra.obj), ([103], 2, Extra.obj), ([104], 2, Extra.obj)]
      [] 0 ⟨[13, 2, 9, 8, 0, 0, 0], [], [], [], none⟩ =
      readFields 1 [([104], 2, Extra.obj)]
        [([102], DV.null), ([103], DV.null)] 0 ⟨[9, 8, 0, 0, 0], [], [], [], none⟩ := by
  have h := (C3_nullrun_slots 0 2 [102] 2 Extra.obj rfl
    [([103], 2, Extra.obj), ([104], 2, Extra.obj)] []).1
    ⟨[13, 2, 9, 8, 0, 0, 0], [], [], [], none⟩ [9, 8, 0, 0, 0] rfl (by norm_num)
  rw [h]
  simp [dinsert]

/-- C3 counterexample: a class with two Object-typed members whose value
stream starts with a null-run of count 0 followed by two string records. The
claim (for N = 0: zero slots consumed, first member decoded from a fresh
record) predicts the first member gets the first string; the code consumes
the empty null-run as a single Null member, so the first member is Null and
the second member receives the first string. -/
theorem C3_counterexample :
    readFields 5 [([102], 2, Extra.obj), ([103], 2, Extra.obj)] [] 0
      ⟨[13, 0, 6, 4, 0, 0, 0, 1, 65, 6, 5, 0, 0, 0, 1, 66], [], [], [], none⟩ =
      (.ok [([102], DV.null), ([103], DV.str [65])],
        ⟨[6, 5, 0, 0, 0, 1, 66], [], [((4 : Int), DV.str [65])], [], none⟩) := by
  simp [readFields, record, record_of_type, byte, int32, lps, varint, varintAux,
    readN, mBind, mOk, mErr, capture, dinsert, setObj, leU, toSigned, TARGET_FIELD,
    List.replicate]

end NRBF

namespace NRBF

theorem mList_int32_enc : ∀ (ls : List Nat) (st : St) (rest : List Nat),
    st.stream = (ls.map (fun l => int32Enc (Int.ofNat l))).flatten ++ rest →
    (∀ l ∈ ls, Int.ofNat l < 2 ^ 31) →
    mList int32 ls.length st =
      (.ok (ls.map Int.ofNat), { st with stream := rest }) := by
  intro ls
  induction ls with
  | nil =>
    intro st rest hs _
    rcases st with ⟨strm, c, o, lb, fx⟩
    simp only [List.map_nil, List.flatten_nil, List.nil_append] at hs
    subst hs
    rfl
  | cons l tl ih =>
    intro st rest hs hb
    simp only [List.map_cons, List.flatten_cons, List.append_assoc] at hs
    simp only [List.length_cons, mList]
    rw [mBind_ok (int32_enc st (Int.ofNat l) _ hs
      (le_trans (by norm_num) (Int.ofNat_nonneg l)) (hb l (by simp)))]
    rw [mBind_ok (ih _ rest rfl (fun x hx => hb x (by simp [hx])))]
    rfl

theorem foldl_mul_cast : ∀ (ls : List Nat) (a : Nat),
    (ls.map Int.ofNat).foldl (· * ·) (Int.ofNat a) =
      Int.ofNat (ls.foldl (· * ·) a) := by
  intro ls
  induction ls with
  | nil => intro a; simp
  | cons l tl ih =>
    intro a
    simp only [List.map_cons, List.foldl_cons]
    rw [show (Int.ofNat a * Int.ofNat l) = Int.ofNat (a * l) from rfl]
    exact ih (a * l)

/-- C7: a BinaryArray record (plain, jagged, or rectangular) whose element
descriptor is an inline primitive reads the product of the per-rank lengths
times the element width as one opaque byte run: the run is stored
uninterpreted and the cursor advances past exactly that many bytes (the run
has full length whenever the buffer holds enough). -/
theorem C7_primitive_array_run (f : Nat) (st : St) (oid : Int) (atype : Nat)
    (ls : List Nat) (tc : Nat) (rest : List Nat)
    (hs : st.stream = int32Enc oid ++ (atype :: (int32Enc (Int.ofNat ls.length)
      ++ ((ls.map (fun l => int32Enc (Int.ofNat l))).flatten ++ (0 :: tc :: rest)))))
    (ho1 : -2 ^ 31 ≤ oid) (ho2 : oid < 2 ^ 31)
    (hA : atype = 0 ∨ atype = 1 ∨ atype = 2)
    (hrank : Int.ofNat ls.length < 2 ^ 31)
    (hls : ∀ l ∈ ls, Int.ofNat l < 2 ^ 31)
    (henough : ls.foldl (· * ·) 1 * (primSize tc).getD 4 ≤ rest.length) :
    binary_array f st =
      (.ok (.bytes (rest.take (ls.foldl (· * ·) 1 * (primSize tc).getD 4))),
        { st with
          stream := rest.drop (ls.foldl (· * ·) 1 * (primSize tc).getD 4),
          objects := dinsert oid
            (.bytes (rest.take (ls.foldl (· * ·) 1 * (primSize tc).getD 4)))
            st.objects }) ∧
    (rest.take (ls.foldl (· * ·) 1 * (primSize tc).getD 4)).length =
      ls.foldl (· * ·) 1 * (primSize tc).getD 4 := by
  have hoff : (atype == 3 || atype == 4 || atype == 5) = false := by
    rcases hA with rfl | rfl | rfl <;> rfl
  constructor
  · simp only [binary_array]
    rw [mBind_ok (int32_enc st oid _ hs ho1 ho2)]
    rw [mBind_ok (byte_cons _ atype _ rfl)]
    rw [mBind_ok (int32_enc _ (Int.ofNat ls.length) _ rfl
      (le_trans (by norm_num) (Int.ofNat_nonneg _)) hrank)]
    rw [show (Int.ofNat ls.length).toNat = ls.length from Int.toNat_natCast _]
    rw [mBind_ok (mList_int32_enc ls _ _ rfl hls)]
    simp only [hoff, Bool.false_eq_true, if_false]
    rw [mBind_ok (show mOk () _ = (.ok (), _) from rfl)]
    rw [mBind_ok (byte_cons _ 0 _ rfl)]
    rw [show read_extra 0 = mBind byte fun tc => mOk (.prim tc) from rfl]
    rw [mBind_assoc]
    rw [mBind_ok (byte_cons _ tc _ rfl)]
    rw [mBind_ok (show mOk (Extra.prim tc) _ = (.ok (.prim tc), _) from rfl)]
    simp only [exTc]
    rw [show (List.map Int.ofNat ls).foldl (· * ·) 1 = Int.ofNat (ls.foldl (· * ·) 1)
      from foldl_mul_cast ls 1]
    have h0 : (0 : Int) ≤ Int.ofNat (ls.foldl (· * ·) 1) * ((primSize tc).getD 4 : Nat) :=
      mul_nonneg (Int.ofNat_nonneg _) (Int.natCast_nonneg _)
    have harg : (Int.ofNat (ls.foldl (· * ·) 1) * ((primSize tc).getD 4 : Nat)).toNat
        = ls.foldl (· * ·) 1 * (primSize tc).getD 4 := rfl
    rw [show readPy (Int.ofNat (ls.foldl (· * ·) 1) * ((primSize tc).getD 4 : Nat)) =
        readN (ls.foldl (· * ·) 1 * (primSize tc).getD 4) by
      funext stx
      rw [readPy, if_neg (not_lt.2 h0), harg]]
    rw [if_pos (show ((0 == 0) = true) from rfl)]
    rw [mBind_ok (readN_exact _ _ (rest.take (ls.foldl (· * ·) 1 * (primSize tc).getD 4))
      (rest.drop (ls.foldl (· * ·) 1 * (primSize tc).getD 4))
      (by rw [List.take_append_drop]) (List.length_take_of_le henough))]
    rw [mBind_ok (setObj_run _ _ _)]
    rfl
  · exact List.length_take_of_le henough

theorem C7_witness :
    binary_array 0
      ⟨int32Enc 1 ++ (2 :: (int32Enc (Int.ofNat ([2, 3] : List Nat).length)
        ++ ((([2, 3] : List Nat).map (fun l => int32Enc (Int.ofNat l))).flatten
          ++ (0 :: 8 :: (List.replicate 24 7 ++ [9]))))), [], [], [], none⟩ =
      (.ok (.bytes (List.replicate 24 7)),
        ⟨[9], [], [((1 : Int), DV.bytes (List.replicate 24 7))], [], none⟩) := by
  have h := (C7_primitive_array_run 0
    ⟨int32Enc 1 ++ (2 :: (int32Enc (Int.ofNat ([2, 3] : List Nat).length)
      ++ ((([2, 3] : List Nat).map (fun l => int32Enc (Int.ofNat l))).flatten
        ++ (0 :: 8 :: (List.replicate 24 7 ++ [9]))))), [], [], [], none⟩
    1 2 [2, 3] 8 (List.replicate 24 7 ++ [9])
    rfl (by norm_num) (by norm_num) (by norm_num) (by decide)
    (by intro l hl; fin_cases hl <;> decide)
    (by norm_num [primSize])).1
  rw [h]
  norm_num [primSize, dinsert]

end NRBF

namespace NRBF

theorem capture_other (fname : List Nat) (v : DV) (st : St)
    (h : fname ≠ TARGET_FIELD) : capture fname v st = (.ok (), st) := by
  simp [capture, h]

/-- The inner class object of the C4 family. -/
def c4Inner (s1 : List Nat) : DV := .obj [73] [(TARGET_FIELD, .str s1)]

/-- The outer class object of the C4 family. -/
def c4Outer (s1 s2 : List Nat) : DV :=
  .obj [79] [([105], c4Inner s1), (TARGET_FIELD, .str s2)]

/-- Executing the C4 outer class record: its first member is a nested class
whose target-named field captures `s1`; its second member is a target-named
string field that captures `s2`, overwriting the earlier capture. -/
theorem c4_outer_step (f : Nat) (st : St) (s1 s2 rest : List Nat)
    (hs : st.stream = int32Enc 2 ++ (lpsEnc [79] ++ (int32Enc 2 ++ (lpsEnc [105] ++ (lpsEnc
      TARGET_FIELD ++ (2 :: (1 :: (int32Enc 3 ++ (5 :: (int32Enc 4 ++ (lpsEnc
      [73] ++ (int32Enc 1 ++ (lpsEnc TARGET_FIELD ++ (1 :: (int32Enc 3 ++ (6 ::
      (int32Enc 5 ++ (lpsEnc s1 ++ (6 :: (int32Enc 6 ++ (lpsEnc s2 ++
      (rest))))))))))))))))))))))
    (h1 : 100 < s1.length) (h1b : s1.length < 2 ^ 35)
    (h2 : 100 < s2.length) (h2b : s2.length < 2 ^ 35) :
    class_record (f + 2) true false st =
      (.ok (c4Outer s1 s2),
        { st with
          stream := rest,
          classes := dinsert 4 ⟨[73], [TARGET_FIELD], [1], [Extra.str]⟩
            (dinsert 2 ⟨[79], [[105], TARGET_FIELD], [2, 1], [Extra.obj, Extra.str]⟩
              st.classes),
          objects := dinsert 2 (c4Outer s1 s2)
            (dinsert 6 (.str s2)
              (dinsert 4 (c4Inner s1) (dinsert 5 (.str s1) st.objects))),
          found_xml := some s2 }) := by
  simp only [class_record]
  rw [mBind_ok (int32_enc st 2 _ hs (by norm_num) (by norm_num))]
  rw [mBind_ok (lps_enc _ [79] _ rfl (by norm_num))]
  rw [mBind_ok (int32_enc _ 2 _ rfl (by norm_num) (by norm_num))]
  simp only [mList, mExtras, mBind_assoc, mBind_mOk, if_true]
  norm_num
  rw [mBind_ok (lps_enc _ [105] _ rfl (by norm_num))]
  rw [mBind_ok (lps_enc _ TARGET_FIELD _ rfl (by rw [TARGET_FIELD_length]; norm_num))]
  dsimp only
  rw [mBind_ok (byte_cons _ 2 _ rfl)]
  rw [mBind_ok (byte_cons _ 1 _ rfl)]
  rw [show read_extra 2 = mOk Extra.obj from rfl]
  simp only [mBind_mOk]
  rw [show read_extra 1 = mOk Extra.str from rfl]
  simp only [mBind_mOk, Bool.false_eq_true, if_false, mBind_assoc]
  rw [mBind_ok (int32_enc _ 3 _ rfl (by norm_num) (by norm_num))]
  simp only [mBind_mOk]
  rw [mBind_ok (setClass_run _ _ _)]
  dsimp only
  simp only [read_class_values, zip3]
  simp [readFields, record, mBind_assoc]
  rw [mBind_ok (byte_cons _ 5 _ rfl)]
  have hrot : record_of_type (f + 1) 5 = class_record (f + 1) true false := by
    simp [record_of_type]
  rw [hrot]
  rw [mBind_ok (classStr_step f _ 4 3 5 [73] s1 _ rfl (by norm_num) (by norm_num)
    (by norm_num) (by norm_num) (by norm_num) (by norm_num) (by norm_num) h1 h1b)]
  dsimp only
  rw [mBind_assoc]
  rw [mBind_ok (capture_other [105] (DV.obj [73] [(TARGET_FIELD, DV.str s1)]) _
    (by decide))]
  rw [mBind_assoc]
  rw [mBind_ok (byte_cons _ 6 _ rfl)]
  rw [mBind_assoc]
  rw [mBind_ok (string_step (f + 1) _ 6 s2 _ rfl (by norm_num) (by norm_num) h2b)]
  dsimp only
  rw [mBind_assoc]
  rw [mBind_ok (capture_hit _ s2 h2)]
  simp only [mBind_mOk]
  rw [mBind_ok (setObj_run _ _ _)]
  have h105 : ¬ ([105] : List Nat) = TARGET_FIELD := by decide
  simp [mOk, dinsert, c4Inner, c4Outer, h105]

end NRBF

namespace NRBF

/-- The C4 outer class record encoding (tag byte included): two members, the
first a nested class carrying the target string `s1`, the second a
target-named String field with value `s2`. -/
def c4OuterEnc (s1 s2 : List Nat) : List Nat :=
  5 :: (int32Enc 2 ++ (lpsEnc [79] ++ (int32Enc 2 ++ (lpsEnc [105] ++
    (lpsEnc TARGET_FIELD ++ (2 :: (1 :: (int32Enc 3 ++ (5 :: (int32Enc 4 ++
    (lpsEnc [73] ++ (int32Enc 1 ++ (lpsEnc TARGET_FIELD ++ (1 :: (int32Enc 3
    ++ (6 :: (int32Enc 5 ++ (lpsEnc s1 ++ (6 :: (int32Enc 6 ++ (lpsEnc
    s2)))))))))))))))))))))

/-- The C4 input family: Header, the two-capture class record, End marker. -/
def c4Buffer (s1 s2 : List Nat) : List Nat :=
  headerEnc 1 ++ (c4OuterEnc s1 s2 ++ [11])

theorem c4_run (s1 s2 : List Nat)
    (h1 : 100 < s1.length) (h1b : s1.length < 2 ^ 35)
    (h2 : 100 < s2.length) (h2b : s2.length < 2 ^ 35) :
    run (c4Buffer s1 s2) =
      (.ok (),
        ⟨[11],
          dinsert 4 ⟨[73], [TARGET_FIELD], [1], [Extra.str]⟩
            (dinsert 2 ⟨[79], [[105], TARGET_FIELD], [2, 1],
              [Extra.obj, Extra.str]⟩ []),
          dinsert 2 (c4Outer s1 s2)
            (dinsert 6 (.str s2) (dinsert 4 (c4Inner s1) (dinsert 5 (.str s1) []))),
          [], some s2⟩) := by
  have hne : s2.isEmpty = false := by
    cases s2
    · simp at h2
    · simp
  have hloop : runLoop ((c4Buffer s1 s2).length + 1) (initSt (c4Buffer s1 s2)) =
      (.ok (),
        ⟨[11],
          dinsert 4 ⟨[73], [TARGET_FIELD], [1], [Extra.str]⟩
            (dinsert 2 ⟨[79], [[105], TARGET_FIELD], [2, 1],
              [Extra.obj, Extra.str]⟩ []),
          dinsert 2 (c4Outer s1 s2)
            (dinsert 6 (.str s2) (dinsert 4 (c4Inner s1) (dinsert 5 (.str s1) []))),
          [], some s2⟩) := by
    have hrec1 : record ((initSt (c4Buffer s1 s2)).stream.length + 1)
        (initSt (c4Buffer s1 s2)) =
        (.ok (.header 1), ⟨c4OuterEnc s1 s2 ++ [11], [], [], [], none⟩) := by
      simp only [record]
      rw [mBind_ok (byte_cons _ 0 (int32Enc 1 ++ (List.replicate 12 0
        ++ (c4OuterEnc s1 s2 ++ [11])))
        (by simp [initSt, c4Buffer, headerEnc, List.append_assoc]))]
      rw [header_step _ _ 1 _ rfl (by norm_num) (by norm_num)]
      simp [initSt]
    rw [runLoop_continue _ _ _ _ hrec1 (by simp [isEnd]) (by simp [foundTruthy])]
    obtain ⟨F, hF⟩ : ∃ F, (c4Buffer s1 s2).length = F + 1 :=
      ⟨(c4Buffer s1 s2).length - 1, by simp [c4Buffer, headerEnc]⟩
    rw [hF]
    have hlen2 : 2 ≤ (c4OuterEnc s1 s2 ++ [11]).length := by
      simp [c4OuterEnc]
      omega
    obtain ⟨g, hg⟩ : ∃ g, (c4OuterEnc s1 s2 ++ [11]).length = g + 2 :=
      ⟨(c4OuterEnc s1 s2 ++ [11]).length - 2, by omega⟩
    have hrec2 : record ((⟨c4OuterEnc s1 s2 ++ [11], [], [], [],
        none⟩ : St).stream.length + 1)
        ⟨c4OuterEnc s1 s2 ++ [11], [], [], [], none⟩ =
        (.ok (c4Outer s1 s2),
          ⟨[11],
            dinsert 4 ⟨[73], [TARGET_FIELD], [1], [Extra.str]⟩
              (dinsert 2 ⟨[79], [[105], TARGET_FIELD], [2, 1],
                [Extra.obj, Extra.str]⟩ []),
            dinsert 2 (c4Outer s1 s2)
              (dinsert 6 (.str s2) (dinsert 4 (c4Inner s1) (dinsert 5 (.str s1) []))),
            [], some s2⟩) := by
      simp only [record]
      rw [hg]
      rw [mBind_ok (byte_cons _ 5
        (int32Enc 2 ++ (lpsEnc [79] ++ (int32Enc 2 ++ (lpsEnc [105] ++
        (lpsEnc TARGET_FIELD ++ (2 :: (1 :: (int32Enc 3 ++ (5 :: (int32Enc
        4 ++ (lpsEnc [73] ++ (int32Enc 1 ++ (lpsEnc TARGET_FIELD ++ (1 ::
        (int32Enc 3 ++ (6 :: (int32Enc 5 ++ (lpsEnc s1 ++ (6 :: (int32Enc
        6 ++ ((lpsEnc s2 ++ [11]))))))))))))))))))))))
        (by simp [c4OuterEnc, List.append_assoc]))]
      have hrot : record_of_type (g + 2) 5 = class_record (g + 2) true false := by
        simp [record_of_type]
      rw [hrot]
      rw [c4_outer_step g
        ⟨int32Enc 2 ++ (lpsEnc [79] ++ (int32Enc 2 ++ (lpsEnc [105] ++
        (lpsEnc TARGET_FIELD ++ (2 :: (1 :: (int32Enc 3 ++ (5 :: (int32Enc
        4 ++ (lpsEnc [73] ++ (int32Enc 1 ++ (lpsEnc TARGET_FIELD ++ (1 ::
        (int32Enc 3 ++ (6 :: (int32Enc 5 ++ (lpsEnc s1 ++ (6 :: (int32Enc
        6 ++ ((lpsEnc s2 ++ [11]))))))))))))))))))))), [], [], [], none⟩
        s1 s2 [11] rfl h1 h1b h2 h2b]
    rw [runLoop_found _ _ _ _ hrec2 (by simp [isEnd, c4Outer]) (by simp [foundTruthy, hne])]
  simp only [run, hloop]

end NRBF

namespace NRBF

/-- C4 amended: a matching field assignment with a plausible string value
overwrites the captured target value unconditionally — the last successful
capture wins, not the first. In the two-capture family (a nested class's
target field captures `s1` before the outer record's own target field
captures `s2`) the session ends with `s2`. -/
theorem C4_last_capture_wins (s1 s2 : List Nat)
    (h1 : 100 < s1.length) (h1b : s1.length < 2 ^ 35)
    (h2 : 100 < s2.length) (h2b : s2.length < 2 ^ 35) :
    (∀ st : St, capture TARGET_FIELD (.str s2) st =
      (.ok (), { st with found_xml := some s2 })) ∧
    (run (c4Buffer s1 s2)).1 = .ok () ∧
    (run (c4Buffer s1 s2)).2.found_xml = some s2 := by
  have h := c4_run s1 s2 h1 h1b h2 h2b
  exact ⟨fun st => capture_hit st s2 h2, by rw [h], by rw [h]⟩

theorem C4_witness :
    (run (c4Buffer (List.replicate 101 97) (List.replicate 101 98))).2.found_xml =
      some (List.replicate 101 98) :=
  (C4_last_capture_wins (List.replicate 101 97) (List.replicate 101 98)
    (by simp) (by simp) (by simp) (by simp)).2.2

/-- C4 counterexample: in the concrete two-capture buffer, the decode session
passes through the state reached right after the nested class record — whose
target-named field sets the captured value to the first string — yet the
session ends with the second string: the first capture did not win. The first
conjunct exhibits the intermediate capture (the nested class record decoded
from the session's actual mid-decode state), the second the final value, the
third that they differ. -/
theorem C4_counterexample :
    (class_record 1 true false
      ⟨int32Enc 4 ++ (lpsEnc [73] ++ (int32Enc 1 ++ (lpsEnc TARGET_FIELD ++
        (1 :: (int32Enc 3 ++ (6 :: (int32Enc 5 ++ (lpsEnc (List.replicate
        101 97) ++ (6 :: (int32Enc 6 ++ ((lpsEnc (List.replicate 101 98) ++
        [11])))))))))))),
        [((2 : Int), ⟨[79], [[105], TARGET_FIELD], [2, 1], [Extra.obj, Extra.str]⟩)],
        [], [], none⟩).2.found_xml = some (List.replicate 101 97) ∧
    (run (c4Buffer (List.replicate 101 97) (List.replicate 101 98))).2.found_xml =
      some (List.replicate 101 98) ∧
    some (List.replicate 101 98) ≠ some (List.replicate 101 97) := by
  refine ⟨?_, ?_, by decide⟩
  · rw [classStr_step 0 _ 4 3 5 [73] (List.replicate 101 97) _ rfl (by norm_num)
      (by norm_num) (by norm_num) (by norm_num) (by norm_num) (by norm_num)
      (by norm_num) (by simp) (by simp)]
  · rw [c4_run (List.replicate 101 97) (List.replicate 101 98)
      (by simp) (by simp) (by simp) (by simp)]

end NRBF
